import Mathlib

/-!
Shallow embedding of `src/api.js` (wolframalpha-websocket-api).

The source is a websocket client: `WolframAlphaApi` owns a map of outstanding
sessions (`pendingResponses`), a pre-connection send queue (`_queue`), and the
socket lifecycle handlers; `QueryResult.handleResponseObject` is the
per-fragment aggregation state machine, including the assumption
template-expansion micro-algorithm.

Modelling conventions:
* JS `Map` becomes an association list with `Map.set` / `Map.delete` /
  `Map.get` semantics (`assocSet`, `assocDelete`, `assocGet`).
* The `Deferred` class (a bare `Promise`) becomes `DeferredState`;
  JS promises settle at most once, so `resolveD` / `rejectD` are no-ops on a
  settled state.
* A synchronous JS `throw` (e.g. `keys.length` on `null`) becomes
  `Except.error ()`.
* JS truthiness on the string-valued fields `obj.input`, `obj.s`, `obj.host`,
  `o.word`, `o.values[0].word` is modelled by `≠ ""` (absent ≙ `""`).
* `EventEmitter.emit('responseObject', obj)` is modelled by an emission log
  carrying the fragment together with the session state visible to listeners
  at the moment of the call.
-/

/-- A JSON-like value, used to model outbound wire messages exactly
(field names and order as written in the source). -/
inductive JsonVal where
  | str (s : String)
  | num (n : Nat)
  | nullV
  | arr (xs : List JsonVal)
  | obj (fields : List (String × JsonVal))

/-- An outbound message: an ordered list of (field name, value) pairs,
mirroring the object literals in the source. -/
abbrev WireMsg := List (String × JsonVal)

/-- State of the `Deferred` promise of a session. -/
inductive DeferredState where
  | pending
  | resolved
  | rejected (e : String)
deriving DecidableEq

/-- `deferred.resolve()`: a JS promise settles at most once, so this is a
no-op unless the state is pending. -/
def resolveD : DeferredState → DeferredState
  | DeferredState.pending => DeferredState.resolved
  | d => d

/-- `deferred.reject(error)`: no-op unless pending. -/
def rejectD (e : String) : DeferredState → DeferredState
  | DeferredState.pending => DeferredState.rejected e
  | d => d

/-- One entry of `assumption.values`. -/
structure AValue where
  desc : String
  word : String
deriving DecidableEq

/-- One entry of `obj.assumptions` (fields read by the source:
`template`, `values`, `word`, `query`). -/
structure Assumption where
  template : String
  word : String
  query : String
  values : List AValue
deriving DecidableEq

/-- A pod as read by the source: `position`, `error` flag, and opaque
remaining content. -/
structure Pod where
  position : Int
  error : Bool
  data : String
deriving DecidableEq

/-- Payload of a `warnings` fragment: `obj.warnings` is either a lone object
or an array. -/
inductive WarningsPayload where
  | one (w : String)
  | many (ws : List String)
deriving DecidableEq

/-- The kind-specific payload of an inbound fragment (`obj.type` plus the
fields each case reads). -/
inductive FragmentPayload where
  | queryComplete (timedOut : List String)
  | didyoumean (suggestions : List String)
  | assumptions (entries : List Assumption)
  | pods (entries : List Pod)
  | stepByStep (pod : Pod)
  | warnings (w : WarningsPayload)
  | noResult
  | futureTopic (t : String)
  | other (ty : String)
deriving DecidableEq

/-- An inbound fragment (`obj`): routing id plus the fields read by every
kind (`input`, `s`, `host`, with `""` meaning absent/falsy). -/
structure Fragment where
  locationId : String
  input : String
  s : String
  host : String
  payload : FragmentPayload
deriving DecidableEq

/-- `Map.get`. -/
def assocGet {κ α : Type} [DecidableEq κ] (k : κ) : List (κ × α) → Option α
  | [] => none
  | p :: rest => if p.1 = k then some p.2 else assocGet k rest

/-- `Map.set`: replaces in place if the key is present, appends otherwise
(JS `Map` preserves insertion order). -/
def assocSet {κ α : Type} [DecidableEq κ] (k : κ) (v : α) : List (κ × α) → List (κ × α)
  | [] => [(k, v)]
  | p :: rest => if p.1 = k then (k, v) :: rest else p :: assocSet k v rest

/-- `Map.delete`. -/
def assocDelete {κ α : Type} [DecidableEq κ] (k : κ) : List (κ × α) → List (κ × α)
  | [] => []
  | p :: rest => if p.1 = k then assocDelete k rest else p :: assocDelete k rest

/-- The aggregated state of one query (`QueryResult`, including the fields
inherited from `Response`). -/
structure QueryResult where
  id : String
  originalInput : String
  inputAssumptions : List String
  responseObjects : List Fragment
  server : Option String
  host : Option String
  correctedInput : Option String
  didYouMean : List String
  pods : List (Int × Pod)
  erroredPods : List Pod
  stepByStep : List (Int × Pod)
  assumptions : List (Assumption × String)
  warnings : List String
  failed : Bool
  futureTopic : List String
  timedOut : List String
  deferred : DeferredState
deriving DecidableEq

/-- The `QueryResult` constructor. -/
def QueryResult.new (id input : String) (assumptions : List String) : QueryResult :=
  { id := id, originalInput := input, inputAssumptions := assumptions,
    responseObjects := [], server := none, host := none, correctedInput := none,
    didYouMean := [], pods := [], erroredPods := [], stepByStep := [],
    assumptions := [], warnings := [], failed := false, futureTopic := [],
    timedOut := [], deferred := DeferredState.pending }

/-- `api.pendingResponses`. -/
abbrev SessionMap := List (String × QueryResult)

/-! ### Template expansion (`assumptions` case)

The source splits `assumption.template` on the regex `\$\x7b\w*\x7d`
(`template.split`) and collects the matches (`template.match`, which yields
`null` when there is no match). The scanner below is the
leftmost-match/restart-at-next-char semantics of that regex, written as a
character DFA. -/

def dollarChar : Char := Char.ofNat 36

def lbraceChar : Char := Char.ofNat 123

def rbraceChar : Char := Char.ofNat 125

/-- JS `\w` (ASCII word character). -/
def isWordChar (c : Char) : Bool := c.isAlphanum || c = Char.ofNat 95

/-- Scanner state: `normal`, just after a `$`, or inside `$\x7b` having read
the (reversed) word characters `w`. -/
inductive ScanState where
  | normal
  | afterDollar
  | inWord (w : List Char)

/-- Core scanner. `cur` is the reversed text of the chunk being built.
Returns (chunks, keys) with chunks.length = keys.length + 1, matching
`template.split(re)` and `template.match(reG)` (keys `= []` ≙ `match`
returned `null`). -/
def scanAux : List Char → ScanState → List Char → (List String × List String)
  | [], ScanState.normal, cur => ([String.mk cur.reverse], [])
  | [], ScanState.afterDollar, cur => ([String.mk (dollarChar :: cur).reverse], [])
  | [], ScanState.inWord w, cur =>
      ([String.mk (w ++ lbraceChar :: dollarChar :: cur).reverse], [])
  | c :: cs, ScanState.normal, cur =>
      if c = dollarChar then scanAux cs ScanState.afterDollar cur
      else scanAux cs ScanState.normal (c :: cur)
  | c :: cs, ScanState.afterDollar, cur =>
      if c = lbraceChar then scanAux cs (ScanState.inWord []) cur
      else if c = dollarChar then scanAux cs ScanState.afterDollar (dollarChar :: cur)
      else scanAux cs ScanState.normal (c :: dollarChar :: cur)
  | c :: cs, ScanState.inWord w, cur =>
      if c = rbraceChar then
        let key := String.mk (dollarChar :: lbraceChar :: (w.reverse ++ [rbraceChar]))
        let rest := scanAux cs ScanState.normal []
        (String.mk cur.reverse :: rest.1, key :: rest.2)
      else if isWordChar c then scanAux cs (ScanState.inWord (c :: w)) cur
      else if c = dollarChar then
        scanAux cs ScanState.afterDollar (w ++ lbraceChar :: dollarChar :: cur)
      else scanAux cs ScanState.normal (c :: w ++ lbraceChar :: dollarChar :: cur)

/-- `template.split(/\$\x7b\w*\x7d/)` paired with
`template.match(/(\$\x7b\w*\x7d)/g)`. -/
def splitTemplate (t : String) : List String × List String :=
  scanAux t.data ScanState.normal []

/-- `String.prototype.includes`. -/
def strIncludes (s sub : String) : Bool := decide (sub.data <:+: s.data)

/-- Resolve one placeholder key (`switch (keys[i])` in the loop body).
Returns the text to append and the new `descIndex`, or `Except.error ()`
where the JS code would throw (accessing `o.values[0]` on an empty
`values`). -/
def resolveKey (a : Assumption) (k : String) (di : Nat) : Except Unit (String × Nat) :=
  if k = "$\x7bdesc\x7d" then
    Except.ok ((match a.values.get? di with
      | some v => v.desc
      | none => ""), di + 1)
  else if k = "$\x7bseparator\x7d" then
    Except.ok (" | ", di)
  else if k = "$\x7bword\x7d" then
    if a.word = "AssumingWord" then
      match a.values.head? with
      | some v => Except.ok (v.desc, di)
      | none => Except.error ()
    else if a.word ≠ "" then
      Except.ok (a.word, di)
    else
      match a.values.head? with
      | some v =>
        if v.word ≠ "" then
          if v.word = " the input " then Except.ok (a.query, di) else Except.ok (v.word, di)
        else Except.ok (a.query, di)
      | none => Except.error ()
  else
    Except.ok (k, di)

/-- The expansion loop: `str += chunks[i]` then resolve `keys[i]`; after the
last key, `str += chunks[keys.length]` (the scanner always yields one more
chunk than keys; the `"undefined"` default mirrors JS string coercion of an
out-of-range index and is unreachable). -/
def expandLoop (a : Assumption) : List String → List String → Nat → String → Except Unit String
  | chunks, [], _, acc => Except.ok (acc ++ chunks.headD "undefined")
  | chunks, k :: keys, di, acc =>
    match resolveKey a k di with
    | Except.error e => Except.error e
    | Except.ok (s, di2) => expandLoop a (chunks.drop 1) keys di2 (acc ++ chunks.headD "undefined" ++ s)

/-- Expand one assumption entry into its display string. When the template
contains no placeholder, `template.match` is `null` and the JS loop bound
`keys.length` throws a `TypeError`: modelled by `Except.error ()`. -/
def expandAssumption (a : Assumption) : Except Unit String :=
  let p := splitTemplate a.template
  match p.2 with
  | [] => Except.error ()
  | _ :: _ =>
    let descIndex : Nat :=
      match a.values.head? with
      | some v => if strIncludes a.template v.desc then 1 else 0
      | none => 0
    expandLoop a p.1 p.2 descIndex ""

/-- The `for (let assumption of obj.assumptions)` loop: expand each entry,
store the string on it, and push it onto `this.assumptions`. -/
def applyAssumptions (q : QueryResult) : List Assumption → Except Unit QueryResult
  | [] => Except.ok q
  | a :: rest =>
    match expandAssumption a with
    | Except.error e => Except.error e
    | Except.ok s =>
      applyAssumptions { q with assumptions := q.assumptions ++ [(a, s)] } rest

/-- The `pods` case body (`for (let pod of obj.pods)`): errored pods are
pushed onto `erroredPods`, the rest upserted into the `pods` map by
`position`. -/
def podsFold : List Pod → QueryResult → QueryResult
  | [], q => q
  | p :: ps, q =>
    podsFold ps
      (if p.error then { q with erroredPods := q.erroredPods ++ [p] }
       else { q with pods := assocSet p.position p q.pods })

/-- `super.handleResponseObject`, first half: `this.responseObjects.push(obj)`. -/
def pushRaw (q : QueryResult) (frag : Fragment) : QueryResult :=
  { q with responseObjects := q.responseObjects ++ [frag] }

/-- The unconditional field updates at the top of
`QueryResult.handleResponseObject`: `if (obj.input) ...; if (obj.s) ...;
if (obj.host) ...`. -/
def recordMeta (q : QueryResult) (frag : Fragment) : QueryResult :=
  let q1 : QueryResult := if frag.input ≠ "" then { q with correctedInput := some frag.input } else q
  let q2 : QueryResult := if frag.s ≠ "" then { q1 with server := some frag.s } else q1
  if frag.host ≠ "" then { q2 with host := some frag.host } else q2

/-- `QueryResult.handleResponseObject`, acting on the session value `q` and
the api's session map `m` (the JS object is shared with the map; value
updates are written back at the key the fragment was routed by, and the
`queryComplete` / `didyoumean` cases touch the map exactly as the source
does via `this.id`). Returns the result (or `Except.error ()` where the JS
code throws) together with the emission log of `emit('responseObject', obj)`:
each emission records the fragment and the session state listeners observe
at that moment. -/
def handleResponseObject (m : SessionMap) (q : QueryResult) (frag : Fragment) :
    Except Unit (SessionMap × QueryResult) × List (Fragment × QueryResult) :=
  -- super.handleResponseObject: push to responseObjects, then emit
  let q0 : QueryResult := pushRaw q frag
  let emits := [(frag, q0)]
  let q3 : QueryResult := recordMeta q0 frag
  (match frag.payload with
   | FragmentPayload.queryComplete ts =>
     let q4 : QueryResult := { q3 with timedOut := ts, deferred := resolveD q3.deferred }
     Except.ok (assocDelete q4.id m, q4)
   | FragmentPayload.didyoumean sugg =>
     let q4 : QueryResult := { q3 with didYouMean := q3.didYouMean ++ sugg }
     let m1 := assocDelete q4.id m
     let q5 : QueryResult := { q4 with id := q4.id ++ "_dym" }
     Except.ok (assocSet q5.id q5 m1, q5)
   | FragmentPayload.assumptions entries =>
     match applyAssumptions q3 entries with
     | Except.error e => Except.error e
     | Except.ok q4 => Except.ok (assocSet frag.locationId q4 m, q4)
   | FragmentPayload.pods ps =>
     let q4 := podsFold ps q3
     Except.ok (assocSet frag.locationId q4 m, q4)
   | FragmentPayload.stepByStep p =>
     let q4 : QueryResult := { q3 with stepByStep := assocSet p.position p q3.stepByStep }
     Except.ok (assocSet frag.locationId q4 m, q4)
   | FragmentPayload.warnings w =>
     let q4 : QueryResult :=
       match w with
       | WarningsPayload.many ws => { q3 with warnings := q3.warnings ++ ws }
       | WarningsPayload.one x => { q3 with warnings := q3.warnings ++ [x] }
     Except.ok (assocSet frag.locationId q4 m, q4)
   | FragmentPayload.noResult =>
     let q4 : QueryResult := { q3 with failed := true }
     Except.ok (assocSet frag.locationId q4 m, q4)
   | FragmentPayload.futureTopic t =>
     let q4 : QueryResult := { q3 with futureTopic := q3.futureTopic ++ [t] }
     Except.ok (assocSet frag.locationId q4 m, q4)
   | FragmentPayload.other _ =>
     Except.ok (assocSet frag.locationId q3 m, q3), emits)

/-! ### Connection manager (`WolframAlphaApi`) -/

/-- The mutable state of `WolframAlphaApi` (plus a `sent` trace recording
every `socket.send`). -/
structure ApiState where
  language : String
  pendingResponses : SessionMap
  queue : List WireMsg
  socketReady : Bool
  hasSocket : Bool
  sent : List WireMsg

/-- The query-start request object built in `query()` (field names and order
as in the source). -/
def mkQueryRequest (language input : String) (assumptions : List String) (id : String) : WireMsg :=
  [("type", JsonVal.str "newQuery"),
   ("language", JsonVal.str language),
   ("file", JsonVal.nullV),
   ("input", JsonVal.str input),
   ("assumption", JsonVal.arr (assumptions.map JsonVal.str)),
   ("locationId", JsonVal.str id)]

/-- The init object sent by the `open` handler (`Date.now()` passed in as
`now`). -/
def mkInitMsg (lang : String) (now : Nat) (queued : List WireMsg) : WireMsg :=
  [("type", JsonVal.str "init"),
   ("lang", JsonVal.str lang),
   ("exp", JsonVal.num now),
   ("messages", JsonVal.arr (queued.map JsonVal.obj))]

/-- `doWebsocketConnect` as far as state goes: a socket now exists (its
handlers are the `socketOn*` functions below). -/
def doWebsocketConnect (st : ApiState) : ApiState :=
  { st with hasSocket := true }

/-- `sendMessage`: send immediately when ready, else queue (and connect if
no socket exists). -/
def sendMessage (st : ApiState) (msg : WireMsg) : ApiState :=
  if st.socketReady then { st with sent := st.sent ++ [msg] }
  else
    let st1 := { st with queue := st.queue ++ [msg] }
    if st1.hasSocket then st1 else doWebsocketConnect st1

/-- The `open` handler: send one init message carrying the language, the
current timestamp and the whole queue; clear the queue; mark ready. -/
def socketOnOpen (st : ApiState) (now : Nat) : ApiState :=
  { st with sent := st.sent ++ [mkInitMsg st.language now st.queue],
            queue := [], socketReady := true }

/-- The `error` handler: drop the socket, reject every outstanding session
with the error. Sessions are not removed from the map. -/
def socketOnError (st : ApiState) (e : String) : ApiState :=
  { st with socketReady := false, hasSocket := false,
            pendingResponses := st.pendingResponses.map
              (fun p => (p.1, { p.2 with deferred := rejectD e p.2.deferred })) }

/-- The `close` handler: drop the socket only. -/
def socketOnClose (st : ApiState) : ApiState :=
  { st with hasSocket := false, socketReady := false }

/-- `handleMessage`: route the fragment by `locationId`; silently drop it
when no session matches. -/
def handleMessage (st : ApiState) (frag : Fragment) :
    Except Unit ApiState × List (Fragment × QueryResult) :=
  match assocGet frag.locationId st.pendingResponses with
  | none => (Except.ok st, [])
  | some q =>
    match handleResponseObject st.pendingResponses q frag with
    | (Except.ok r, ems) => (Except.ok { st with pendingResponses := r.1 }, ems)
    | (Except.error e, ems) => (Except.error e, ems)

/-- `query()`: create the session, register it, build the request, send. The
fresh uuid is passed in as `id`. -/
def apiQuery (st : ApiState) (id input : String) (assumptions : List String) :
    ApiState × QueryResult :=
  let response := QueryResult.new id input assumptions
  let request := mkQueryRequest st.language input assumptions id
  let st1 := { st with pendingResponses := assocSet id response st.pendingResponses }
  (sendMessage st1 request, response)

/-! ### Concrete sample states, used by witnesses and counterexamples -/

/-- A fresh session registered under id `"a"`. -/
def sampleSession : QueryResult := QueryResult.new "a" "x" []

/-- A fresh session registered under id `"b"`. -/
def sampleSession2 : QueryResult := QueryResult.new "b" "y" []

/-- A session map holding `sampleSession` under `"a"`. -/
def sampleMap : SessionMap := [("a", sampleSession)]

/-- A `queryComplete` fragment addressed to `"a"`. -/
def fragQC : Fragment :=
  { locationId := "a", input := "", s := "", host := "",
    payload := FragmentPayload.queryComplete [] }

/-- A `didyoumean` fragment addressed to `"a"` carrying one suggestion. -/
def fragDym : Fragment :=
  { locationId := "a", input := "", s := "", host := "",
    payload := FragmentPayload.didyoumean ["y"] }

/-- A non-errored pod at position 1. -/
def podFirst : Pod := { position := 1, error := false, data := "first" }

/-- An errored pod at position 1. -/
def podBad : Pod := { position := 1, error := true, data := "bad" }

/-- A second non-errored pod at position 1. -/
def podSecond : Pod := { position := 1, error := false, data := "second" }

/-- A `pods` fragment: two pods at position 1 (second must win) and one
errored pod at position 1 (must never enter the map). -/
def fragPods : Fragment :=
  { locationId := "a", input := "", s := "", host := "",
    payload := FragmentPayload.pods [podFirst, podBad, podSecond] }

/-- The session state after `sampleSession` handles `fragQC`. -/
def qcResult : QueryResult :=
  { pushRaw sampleSession fragQC with timedOut := [], deferred := DeferredState.resolved }

/-- The session state after `sampleSession` handles `fragDym`. -/
def dymResult : QueryResult :=
  { pushRaw sampleSession fragDym with didYouMean := ["y"], id := "a_dym" }

/-- The session state after `sampleSession` handles `fragPods`. -/
def podsResult : QueryResult :=
  { pushRaw sampleSession fragPods with
      pods := [((1 : Int), podSecond)], erroredPods := [podBad] }

/-- An `assumptions` fragment whose template has no placeholder: the source
throws a `TypeError` on it (`keys` is `null`). -/
def fragBadAssumptions : Fragment :=
  { locationId := "a", input := "", s := "", host := "",
    payload := FragmentPayload.assumptions
      [{ template := "hello", word := "", query := "q", values := [] }] }

/-- A well-formed assumption entry. -/
def goodAssumption : Assumption :=
  { template := "Assuming $\x7bdesc\x7d", word := "", query := "q",
    values := [{ desc := "zz", word := "" }] }

/-- A well-formed `assumptions` fragment. -/
def fragGoodAssumptions : Fragment :=
  { locationId := "a", input := "", s := "", host := "",
    payload := FragmentPayload.assumptions [goodAssumption] }

/-- An assumption whose first value carries the word field `"the input"`
(no surrounding spaces), used to separate the claimed sentinel from the
source's `' the input '`. -/
def assumptionTheInput : Assumption :=
  { template := "$\x7bword\x7d", word := "", query := "QUERYTEXT",
    values := [{ desc := "zz", word := "the input" }] }

/-- An api state with an open, ready socket and no outstanding sessions. -/
def sampleApiReady : ApiState :=
  { language := "en", pendingResponses := [], queue := [],
    socketReady := true, hasSocket := true, sent := [] }

/-- An api state with no socket yet. -/
def sampleApiUnready : ApiState :=
  { language := "en", pendingResponses := [], queue := [],
    socketReady := false, hasSocket := false, sent := [] }

/-- An api state with two outstanding sessions and a connecting socket. -/
def sampleApiTwoSessions : ApiState :=
  { language := "en", pendingResponses := [("a", sampleSession), ("b", sampleSession2)],
    queue := [], socketReady := false, hasSocket := true, sent := [] }

/-- A sample outbound message. -/
def msgA : WireMsg := [("k", JsonVal.str "1")]

/-- Another sample outbound message. -/
def msgB : WireMsg := [("k", JsonVal.str "2")]

/-- The `$\x7bword\x7d` priority chain written out the way the (amended)
specification sentence describes it, with the source's literal sentinel
`" the input "`; to be compared against `resolveKey`. -/
def wordChainSpec (a : Assumption) (v0 : AValue) : String :=
  if a.word = "AssumingWord" then v0.desc
  else if a.word ≠ "" then a.word
  else if v0.word ≠ "" then (if v0.word = " the input " then a.query else v0.word)
  else a.query

/-! ### Sanity checks against the examples in the documentation -/

example :
    splitTemplate "Assuming $\x7bdesc\x7d is $\x7bword\x7d" =
      (["Assuming ", " is ", ""], ["$\x7bdesc\x7d", "$\x7bword\x7d"]) := by decide

example :
    expandAssumption
      { template := "Assuming $\x7bdesc\x7d is $\x7bword\x7d", word := "", query := "x",
        values := [{ desc := "x", word := "a variable" }] } =
      Except.ok "Assuming x is a variable" := rfl

/-! ### Helper lemmas -/

theorem resolveD_of_ne_pending (d : DeferredState) (h : d ≠ DeferredState.pending) :
    resolveD d = d := by
  cases d with
  | pending => exact absurd rfl h
  | resolved => rfl
  | rejected e => rfl

theorem rejectD_of_ne_pending (e : String) (d : DeferredState) (h : d ≠ DeferredState.pending) :
    rejectD e d = d := by
  cases d with
  | pending => exact absurd rfl h
  | resolved => rfl
  | rejected f => rfl

@[simp] theorem recordMeta_deferred (q : QueryResult) (frag : Fragment) :
    (recordMeta q frag).deferred = q.deferred := by
  unfold recordMeta
  by_cases h1 : frag.input ≠ "" <;> by_cases h2 : frag.s ≠ "" <;>
    by_cases h3 : frag.host ≠ "" <;> simp [h1, h2, h3]

@[simp] theorem recordMeta_id (q : QueryResult) (frag : Fragment) :
    (recordMeta q frag).id = q.id := by
  unfold recordMeta
  by_cases h1 : frag.input ≠ "" <;> by_cases h2 : frag.s ≠ "" <;>
    by_cases h3 : frag.host ≠ "" <;> simp [h1, h2, h3]

@[simp] theorem recordMeta_didYouMean (q : QueryResult) (frag : Fragment) :
    (recordMeta q frag).didYouMean = q.didYouMean := by
  unfold recordMeta
  by_cases h1 : frag.input ≠ "" <;> by_cases h2 : frag.s ≠ "" <;>
    by_cases h3 : frag.host ≠ "" <;> simp [h1, h2, h3]

@[simp] theorem recordMeta_pods (q : QueryResult) (frag : Fragment) :
    (recordMeta q frag).pods = q.pods := by
  unfold recordMeta
  by_cases h1 : frag.input ≠ "" <;> by_cases h2 : frag.s ≠ "" <;>
    by_cases h3 : frag.host ≠ "" <;> simp [h1, h2, h3]

@[simp] theorem recordMeta_erroredPods (q : QueryResult) (frag : Fragment) :
    (recordMeta q frag).erroredPods = q.erroredPods := by
  unfold recordMeta
  by_cases h1 : frag.input ≠ "" <;> by_cases h2 : frag.s ≠ "" <;>
    by_cases h3 : frag.host ≠ "" <;> simp [h1, h2, h3]

@[simp] theorem recordMeta_responseObjects (q : QueryResult) (frag : Fragment) :
    (recordMeta q frag).responseObjects = q.responseObjects := by
  unfold recordMeta
  by_cases h1 : frag.input ≠ "" <;> by_cases h2 : frag.s ≠ "" <;>
    by_cases h3 : frag.host ≠ "" <;> simp [h1, h2, h3]

@[simp] theorem pushRaw_deferred (q : QueryResult) (frag : Fragment) :
    (pushRaw q frag).deferred = q.deferred := rfl

@[simp] theorem pushRaw_id (q : QueryResult) (frag : Fragment) :
    (pushRaw q frag).id = q.id := rfl

@[simp] theorem pushRaw_didYouMean (q : QueryResult) (frag : Fragment) :
    (pushRaw q frag).didYouMean = q.didYouMean := rfl

@[simp] theorem pushRaw_pods (q : QueryResult) (frag : Fragment) :
    (pushRaw q frag).pods = q.pods := rfl

@[simp] theorem pushRaw_erroredPods (q : QueryResult) (frag : Fragment) :
    (pushRaw q frag).erroredPods = q.erroredPods := rfl

theorem assocGet_set_self {κ α : Type} [DecidableEq κ] (k : κ) (v : α) (m : List (κ × α)) :
    assocGet k (assocSet k v m) = some v := by
  induction m with
  | nil => simp [assocSet, assocGet]
  | cons p rest ih =>
    by_cases h : p.1 = k <;> simp [assocSet, assocGet, h, ih]

theorem assocGet_set_ne {κ α : Type} [DecidableEq κ] (k k2 : κ) (v : α) (m : List (κ × α))
    (h : k2 ≠ k) : assocGet k2 (assocSet k v m) = assocGet k2 m := by
  induction m with
  | nil => simp [assocSet, assocGet, Ne.symm h]
  | cons p rest ih =>
    by_cases hp : p.1 = k
    · subst hp
      simp [assocSet, assocGet, Ne.symm h]
    · simp only [show assocSet k v (p :: rest) = p :: assocSet k v rest from by
        simp [assocSet, hp], assocGet]
      by_cases hp2 : p.1 = k2 <;> simp [hp2, ih]

theorem assocGet_delete_self {κ α : Type} [DecidableEq κ] (k : κ) (m : List (κ × α)) :
    assocGet k (assocDelete k m) = none := by
  induction m with
  | nil => simp [assocDelete, assocGet]
  | cons p rest ih =>
    by_cases h : p.1 = k <;> simp [assocDelete, assocGet, h, ih]

theorem assocGet_delete_ne {κ α : Type} [DecidableEq κ] (k k2 : κ) (m : List (κ × α))
    (h : k2 ≠ k) : assocGet k2 (assocDelete k m) = assocGet k2 m := by
  induction m with
  | nil => simp [assocDelete, assocGet]
  | cons p rest ih =>
    by_cases hp : p.1 = k
    · subst hp
      simp [assocDelete, assocGet, Ne.symm h, ih]
    · simp only [show assocDelete k (p :: rest) = p :: assocDelete k rest from by
        simp [assocDelete, hp], assocGet]
      by_cases hp2 : p.1 = k2 <;> simp [hp2, ih]

theorem assocSet_keys_mem {κ α : Type} [DecidableEq κ] (x k : κ) (v : α) (m : List (κ × α))
    (h : x ∈ (assocSet k v m).map Prod.fst) : x = k ∨ x ∈ m.map Prod.fst := by
  induction m with
  | nil =>
    simp only [assocSet, List.map_cons, List.map_nil, List.mem_singleton] at h
    exact Or.inl h
  | cons p rest ih =>
    by_cases hp : p.1 = k
    · rw [show assocSet k v (p :: rest) = (k, v) :: rest from by simp [assocSet, hp]] at h
      simp only [List.map_cons, List.mem_cons] at h
      rcases h with h | h
      · exact Or.inl h
      · exact Or.inr (by simp only [List.map_cons, List.mem_cons]; exact Or.inr h)
    · rw [show assocSet k v (p :: rest) = p :: assocSet k v rest from by
        simp [assocSet, hp]] at h
      simp only [List.map_cons, List.mem_cons] at h
      rcases h with h | h
      · exact Or.inr (by simp only [List.map_cons, List.mem_cons]; exact Or.inl h)
      · rcases ih h with h2 | h2
        · exact Or.inl h2
        · exact Or.inr (by simp only [List.map_cons, List.mem_cons]; exact Or.inr h2)

theorem assocSet_keys_nodup {κ α : Type} [DecidableEq κ] (k : κ) (v : α) (m : List (κ × α))
    (h : (m.map Prod.fst).Nodup) : ((assocSet k v m).map Prod.fst).Nodup := by
  induction m with
  | nil => simp [assocSet]
  | cons p rest ih =>
    rw [List.map_cons, List.nodup_cons] at h
    obtain ⟨hnotin, hrest⟩ := h
    by_cases hp : p.1 = k
    · rw [show assocSet k v (p :: rest) = (k, v) :: rest from by simp [assocSet, hp]]
      rw [List.map_cons, List.nodup_cons]
      exact ⟨hp ▸ hnotin, hrest⟩
    · rw [show assocSet k v (p :: rest) = p :: assocSet k v rest from by simp [assocSet, hp]]
      rw [List.map_cons, List.nodup_cons]
      refine ⟨fun hmem => ?_, ih hrest⟩
      rcases assocSet_keys_mem p.1 k v rest hmem with h2 | h2
      · exact hp h2
      · exact hnotin h2

theorem applyAssumptions_preserves :
    ∀ (entries : List Assumption) (q q2 : QueryResult),
      applyAssumptions q entries = Except.ok q2 →
      q2.deferred = q.deferred ∧ q2.id = q.id ∧ q2.didYouMean = q.didYouMean ∧
      q2.pods = q.pods ∧ q2.erroredPods = q.erroredPods ∧
      q2.responseObjects = q.responseObjects ∧ q2.failed = q.failed := by
  intro entries
  induction entries with
  | nil =>
    intro q q2 h
    simp only [applyAssumptions, Except.ok.injEq] at h
    subst h
    exact ⟨rfl, rfl, rfl, rfl, rfl, rfl, rfl⟩
  | cons a rest ih =>
    intro q q2 h
    simp only [applyAssumptions] at h
    cases he : expandAssumption a with
    | error e => rw [he] at h; exact absurd h (by simp)
    | ok s =>
      rw [he] at h
      simpa using ih { q with assumptions := q.assumptions ++ [(a, s)] } q2 h

theorem podsFold_preserves : ∀ (ps : List Pod) (q : QueryResult),
    (podsFold ps q).deferred = q.deferred ∧ (podsFold ps q).id = q.id ∧
    (podsFold ps q).didYouMean = q.didYouMean ∧
    (podsFold ps q).responseObjects = q.responseObjects ∧
    (podsFold ps q).failed = q.failed := by
  intro ps
  induction ps with
  | nil => intro q; simp [podsFold]
  | cons p rest ih =>
    intro q
    cases hp : p.error
    · simpa [podsFold, hp] using ih { q with pods := assocSet p.position p q.pods }
    · simpa [podsFold, hp] using ih { q with erroredPods := q.erroredPods ++ [p] }

/-- The last non-errored pod at position `pos` in a fragment's pod list. -/
def lastNonErrAt (pos : Int) : List Pod → Option Pod
  | [] => none
  | p :: ps =>
    match lastNonErrAt pos ps with
    | some x => some x
    | none => if p.error = false ∧ p.position = pos then some p else none

theorem podsFold_get (pos : Int) : ∀ (ps : List Pod) (q : QueryResult),
    assocGet pos (podsFold ps q).pods =
      match lastNonErrAt pos ps with
      | some p => some p
      | none => assocGet pos q.pods := by
  intro ps
  induction ps with
  | nil => intro q; simp [podsFold, lastNonErrAt]
  | cons p rest ih =>
    intro q
    cases hp : p.error
    · have hstep : podsFold (p :: rest) q =
          podsFold rest { q with pods := assocSet p.position p q.pods } := by
        simp [podsFold, hp]
      rw [hstep, ih]
      cases hlast : lastNonErrAt pos rest with
      | some x => simp [lastNonErrAt, hlast]
      | none =>
        simp only [lastNonErrAt, hlast]
        by_cases hpos : p.position = pos
        · rw [hpos]
          simp [hp, hpos, assocGet_set_self]
        · simp [hp, hpos, assocGet_set_ne p.position pos p q.pods (Ne.symm hpos)]
    · have hstep : podsFold (p :: rest) q =
          podsFold rest { q with erroredPods := q.erroredPods ++ [p] } := by
        simp [podsFold, hp]
      rw [hstep, ih]
      cases hlast : lastNonErrAt pos rest <;> simp [lastNonErrAt, hlast, hp]

theorem podsFold_erroredPods : ∀ (ps : List Pod) (q : QueryResult),
    (podsFold ps q).erroredPods = q.erroredPods ++ ps.filter (fun p => p.error) := by
  intro ps
  induction ps with
  | nil => intro q; simp [podsFold]
  | cons p rest ih =>
    intro q
    cases hp : p.error
    · simp [podsFold, hp, ih, List.filter_cons]
    · simp [podsFold, hp, ih, List.filter_cons]

/-- The effect of a pod list on the `pods` map alone: upsert each pod by
position, in order. -/
def podsMapFold (ps : List Pod) (m0 : List (Int × Pod)) : List (Int × Pod) :=
  ps.foldl (fun acc p => assocSet p.position p acc) m0

theorem podsFold_pods : ∀ (ps : List Pod) (q : QueryResult),
    (podsFold ps q).pods = podsMapFold (ps.filter (fun p => p.error = false)) q.pods := by
  intro ps
  induction ps with
  | nil => intro q; simp [podsFold, podsMapFold]
  | cons p rest ih =>
    intro q
    cases hp : p.error
    · simp [podsFold, hp, List.filter_cons, podsMapFold, List.foldl_cons, ih]
    · simp [podsFold, hp, List.filter_cons, podsMapFold, ih]

theorem podsFold_keys_nodup : ∀ (ps : List Pod) (q : QueryResult),
    ((q.pods.map Prod.fst).Nodup) → (((podsFold ps q).pods.map Prod.fst).Nodup) := by
  intro ps
  induction ps with
  | nil => intro q h; simpa [podsFold] using h
  | cons p rest ih =>
    intro q h
    cases hp : p.error
    · have hstep : podsFold (p :: rest) q =
          podsFold rest { q with pods := assocSet p.position p q.pods } := by
        simp [podsFold, hp]
      rw [hstep]
      exact ih _ (assocSet_keys_nodup p.position p q.pods h)
    · have hstep : podsFold (p :: rest) q =
          podsFold rest { q with erroredPods := q.erroredPods ++ [p] } := by
        simp [podsFold, hp]
      rw [hstep]
      exact ih _ h

theorem resolveKey_ok (a : Assumption) (hv : a.values ≠ []) (k : String) (di : Nat) :
    ∃ r, resolveKey a k di = Except.ok r := by
  rcases List.exists_cons_of_ne_nil hv with ⟨v, vs, hval⟩
  unfold resolveKey
  rw [hval]
  simp only [List.head?_cons]
  split_ifs <;> exact ⟨_, rfl⟩

theorem expandLoop_ok (a : Assumption) (hv : a.values ≠ []) :
    ∀ (keys chunks : List String) (di : Nat) (acc : String),
      ∃ s, expandLoop a chunks keys di acc = Except.ok s := by
  intro keys
  induction keys with
  | nil => intro chunks di acc; exact ⟨_, rfl⟩
  | cons k rest ih =>
    intro chunks di acc
    obtain ⟨⟨s, di2⟩, hk⟩ := resolveKey_ok a hv k di
    simp only [expandLoop, hk]
    exact ih _ _ _

theorem expandAssumption_ok (a : Assumption) (hkeys : (splitTemplate a.template).2 ≠ [])
    (hv : a.values ≠ []) : ∃ s, expandAssumption a = Except.ok s := by
  rcases List.exists_cons_of_ne_nil hkeys with ⟨k, ks, hk⟩
  simp only [expandAssumption]
  rw [hk]
  exact expandLoop_ok a hv (k :: ks) _ _ _

theorem applyAssumptions_ok :
    ∀ (entries : List Assumption) (q : QueryResult),
      (∀ a ∈ entries, (splitTemplate a.template).2 ≠ [] ∧ a.values ≠ []) →
      ∃ q2, applyAssumptions q entries = Except.ok q2 := by
  intro entries
  induction entries with
  | nil => intro q _; exact ⟨q, rfl⟩
  | cons a rest ih =>
    intro q h
    obtain ⟨s, hs⟩ := expandAssumption_ok a (h a (by simp)).1 (h a (by simp)).2
    simp only [applyAssumptions, hs]
    exact ih _ (fun b hb => h b (by simp [hb]))

theorem assocGet_map {κ α : Type} [DecidableEq κ] (k : κ) (f : α → α) (m : List (κ × α)) :
    assocGet k (m.map (fun p => (p.1, f p.2))) = (assocGet k m).map f := by
  induction m with
  | nil => simp [assocGet]
  | cons p rest ih =>
    by_cases hp : p.1 = k <;> simp [assocGet, hp, ih]

theorem string_ne_append_dym (s : String) : s ≠ s ++ "_dym" := by
  intro h
  have hlen := congrArg String.length h
  rw [String.length_append] at hlen
  have h4 : ("_dym" : String).length = 4 := rfl
  omega

theorem handleRO_deferred (m : SessionMap) (q : QueryResult) (frag : Fragment)
    (m2 : SessionMap) (q2 : QueryResult)
    (h : (handleResponseObject m q frag).1 = Except.ok (m2, q2)) :
    q2.deferred = (match frag.payload with
      | FragmentPayload.queryComplete _ => resolveD q.deferred
      | _ => q.deferred) := by
  cases hp : frag.payload with
  | queryComplete ts =>
    simp only [handleResponseObject, hp, Except.ok.injEq, Prod.mk.injEq] at h
    obtain ⟨h1, h2⟩ := h
    subst h2
    simp
  | didyoumean sugg =>
    simp only [handleResponseObject, hp, Except.ok.injEq, Prod.mk.injEq] at h
    obtain ⟨h1, h2⟩ := h
    subst h2
    simp
  | assumptions entries =>
    simp only [handleResponseObject, hp] at h
    cases ha : applyAssumptions (recordMeta (pushRaw q frag) frag) entries with
    | error e => rw [ha] at h; simp at h
    | ok q4 =>
      rw [ha] at h
      simp only [Except.ok.injEq, Prod.mk.injEq] at h
      obtain ⟨h1, h2⟩ := h
      subst h2
      have hpres := (applyAssumptions_preserves entries _ q4 ha).1
      simpa using hpres
  | pods ps =>
    simp only [handleResponseObject, hp, Except.ok.injEq, Prod.mk.injEq] at h
    obtain ⟨h1, h2⟩ := h
    subst h2
    have hpres := (podsFold_preserves ps (recordMeta (pushRaw q frag) frag)).1
    simpa using hpres
  | stepByStep p =>
    simp only [handleResponseObject, hp, Except.ok.injEq, Prod.mk.injEq] at h
    obtain ⟨h1, h2⟩ := h
    subst h2
    simp
  | warnings w =>
    simp only [handleResponseObject, hp, Except.ok.injEq, Prod.mk.injEq] at h
    cases w with
    | one x =>
      obtain ⟨h1, h2⟩ := h
      subst h2
      simp
    | many ws =>
      obtain ⟨h1, h2⟩ := h
      subst h2
      simp
  | noResult =>
    simp only [handleResponseObject, hp, Except.ok.injEq, Prod.mk.injEq] at h
    obtain ⟨h1, h2⟩ := h
    subst h2
    simp
  | futureTopic t =>
    simp only [handleResponseObject, hp, Except.ok.injEq, Prod.mk.injEq] at h
    obtain ⟨h1, h2⟩ := h
    subst h2
    simp
  | other ty =>
    simp only [handleResponseObject, hp, Except.ok.injEq, Prod.mk.injEq] at h
    obtain ⟨h1, h2⟩ := h
    subst h2
    simp

/-- Claim C1: for every session, the completion future resolves iff a
fragment of kind `queryComplete` is applied to that session (the re-keyed
successor carries the very same deferred, so the statement covers it at its
own dispatch step), and settlement is at most once: a fragment applied to an
already-settled session never changes the settled outcome, and `resolveD` /
`rejectD` are no-ops on a settled deferred, so a duplicate `queryComplete`
never resolves a second time and no resolve-after-reject or
reject-after-resolve changes the outcome. -/
theorem completion_resolves_iff_queryComplete :
    ∀ (m : SessionMap) (q : QueryResult) (frag : Fragment) (m2 : SessionMap) (q2 : QueryResult),
      (handleResponseObject m q frag).1 = Except.ok (m2, q2) →
      ((q.deferred = DeferredState.pending →
          (q2.deferred = DeferredState.resolved ↔
            ∃ ts, frag.payload = FragmentPayload.queryComplete ts)) ∧
        (q.deferred ≠ DeferredState.pending → q2.deferred = q.deferred) ∧
        (∀ d : DeferredState, d ≠ DeferredState.pending → resolveD d = d) ∧
        (∀ (e : String) (d : DeferredState), d ≠ DeferredState.pending → rejectD e d = d)) := by
  intro m q frag m2 q2 h
  have hdef := handleRO_deferred m q frag m2 q2 h
  have hcases : (q2.deferred = resolveD q.deferred ∧
        ∃ ts, frag.payload = FragmentPayload.queryComplete ts) ∨
      (q2.deferred = q.deferred ∧
        ∀ ts, frag.payload ≠ FragmentPayload.queryComplete ts) := by
    cases hp : frag.payload with
    | queryComplete ts => simp only [hp] at hdef; exact Or.inl ⟨hdef, ts, rfl⟩
    | didyoumean sugg => simp only [hp] at hdef; exact Or.inr ⟨hdef, by simp [hp]⟩
    | assumptions entries => simp only [hp] at hdef; exact Or.inr ⟨hdef, by simp [hp]⟩
    | pods ps => simp only [hp] at hdef; exact Or.inr ⟨hdef, by simp [hp]⟩
    | stepByStep p => simp only [hp] at hdef; exact Or.inr ⟨hdef, by simp [hp]⟩
    | warnings w => simp only [hp] at hdef; exact Or.inr ⟨hdef, by simp [hp]⟩
    | noResult => simp only [hp] at hdef; exact Or.inr ⟨hdef, by simp [hp]⟩
    | futureTopic t => simp only [hp] at hdef; exact Or.inr ⟨hdef, by simp [hp]⟩
    | other ty => simp only [hp] at hdef; exact Or.inr ⟨hdef, by simp [hp]⟩
  refine ⟨?_, ?_, resolveD_of_ne_pending, rejectD_of_ne_pending⟩
  · intro hpend
    rcases hcases with ⟨hd, ts, hts⟩ | ⟨hd, hnots⟩
    · constructor
      · intro _; exact ⟨ts, hts⟩
      · intro _; rw [hd, hpend]; rfl
    · rw [hd, hpend]
      simp [hnots]
  · intro hnp
    rcases hcases with ⟨hd, ts, hts⟩ | ⟨hd, hnots⟩
    · rw [hd]; exact resolveD_of_ne_pending q.deferred hnp
    · exact hd

/-- Witness for C1 at a concrete pending session and `queryComplete`
fragment. -/
theorem completion_resolves_iff_queryComplete_witness :
    ((handleResponseObject sampleMap sampleSession fragQC).1 =
      Except.ok (([] : SessionMap), qcResult)) ∧
    (sampleSession.deferred = DeferredState.pending →
      (qcResult.deferred = DeferredState.resolved ↔
        ∃ ts, fragQC.payload = FragmentPayload.queryComplete ts)) := by
  have h : (handleResponseObject sampleMap sampleSession fragQC).1 =
      Except.ok (([] : SessionMap), qcResult) := rfl
  exact ⟨h, (completion_resolves_iff_queryComplete sampleMap sampleSession fragQC [] qcResult h).1⟩

/-- Claim C2: a `didyoumean` fragment re-keys the session: afterwards it is
in the outstanding map under `id ++ "_dym"` and not under `id`, the carried
suggestions are appended to `didYouMean`, and any later fragment tagged with
the original id is dropped by `handleMessage` without touching any state. -/
theorem didyoumean_rekeys_session :
    ∀ (m : SessionMap) (q : QueryResult) (frag : Fragment) (sugg : List String)
      (m2 : SessionMap) (q2 : QueryResult),
      frag.payload = FragmentPayload.didyoumean sugg →
      (handleResponseObject m q frag).1 = Except.ok (m2, q2) →
      (assocGet (q.id ++ "_dym") m2 = some q2 ∧
       assocGet q.id m2 = none ∧
       q2.didYouMean = q.didYouMean ++ sugg ∧
       q2.id = q.id ++ "_dym" ∧
       (∀ (st2 : ApiState) (frag2 : Fragment),
         st2.pendingResponses = m2 → frag2.locationId = q.id →
         handleMessage st2 frag2 = (Except.ok st2, []))) := by
  intro m q frag sugg m2 q2 hp h
  simp only [handleResponseObject, hp, Except.ok.injEq, Prod.mk.injEq] at h
  obtain ⟨h1, h2⟩ := h
  subst h1
  subst h2
  have hnone : assocGet q.id
      (assocSet (q.id ++ "_dym")
        { recordMeta (pushRaw q frag) frag with
            didYouMean := (recordMeta (pushRaw q frag) frag).didYouMean ++ sugg,
            id := (recordMeta (pushRaw q frag) frag).id ++ "_dym" }
        (assocDelete (recordMeta (pushRaw q frag) frag).id m)) = none := by
    rw [assocGet_set_ne _ _ _ _ (string_ne_append_dym q.id)]
    simp [assocGet_delete_self]
  refine ⟨?_, ?_, ?_, ?_, ?_⟩
  · simp [assocGet_set_self]
  · simpa using hnone
  · simp
  · simp
  · intro st2 frag2 hst hloc
    simp only [handleMessage, hst, hloc]
    rw [show assocGet q.id
        (assocSet ((recordMeta (pushRaw q frag) frag).id ++ "_dym")
          { recordMeta (pushRaw q frag) frag with
              didYouMean := (recordMeta (pushRaw q frag) frag).didYouMean ++ sugg,
              id := (recordMeta (pushRaw q frag) frag).id ++ "_dym" }
          (assocDelete (recordMeta (pushRaw q frag) frag).id m)) = none from by
      simpa using hnone]

/-- Witness for C2 at a concrete session and `didyoumean` fragment. -/
theorem didyoumean_rekeys_session_witness :
    (fragDym.payload = FragmentPayload.didyoumean ["y"]) ∧
    ((handleResponseObject sampleMap sampleSession fragDym).1 =
      Except.ok ([("a_dym", dymResult)], dymResult)) ∧
    assocGet (sampleSession.id ++ "_dym") [("a_dym", dymResult)] = some dymResult ∧
    assocGet sampleSession.id [("a_dym", dymResult)] = none := by
  have h : (handleResponseObject sampleMap sampleSession fragDym).1 =
      Except.ok ([("a_dym", dymResult)], dymResult) := rfl
  have H := didyoumean_rekeys_session sampleMap sampleSession fragDym ["y"]
    [("a_dym", dymResult)] dymResult rfl h
  exact ⟨rfl, h, H.1, H.2.1⟩

/-- Claim C3: in a `pods` fragment, every errored pod is appended to
`erroredPods` and never enters the `pods` map (the map is exactly the upsert
of the non-errored pods), the pod stored at each position is the last
non-errored pod of the fragment at that position (falling back to the
previous map entry), and the map keys stay duplicate-free. -/
theorem pods_lastWriteWins :
    ∀ (m : SessionMap) (q : QueryResult) (frag : Fragment) (ps : List Pod)
      (m2 : SessionMap) (q2 : QueryResult),
      frag.payload = FragmentPayload.pods ps →
      (handleResponseObject m q frag).1 = Except.ok (m2, q2) →
      (q2.erroredPods = q.erroredPods ++ ps.filter (fun p => p.error) ∧
       q2.pods = podsMapFold (ps.filter (fun p => p.error = false)) q.pods ∧
       (∀ pos : Int, assocGet pos q2.pods =
          match lastNonErrAt pos ps with
          | some p => some p
          | none => assocGet pos q.pods) ∧
       ((q.pods.map Prod.fst).Nodup → (q2.pods.map Prod.fst).Nodup)) := by
  intro m q frag ps m2 q2 hp h
  simp only [handleResponseObject, hp, Except.ok.injEq, Prod.mk.injEq] at h
  obtain ⟨h1, h2⟩ := h
  subst h2
  have hpodsA : (recordMeta (pushRaw q frag) frag).pods = q.pods := by simp
  have herrA : (recordMeta (pushRaw q frag) frag).erroredPods = q.erroredPods := by simp
  refine ⟨?_, ?_, ?_, ?_⟩
  · rw [podsFold_erroredPods ps (recordMeta (pushRaw q frag) frag), herrA]
  · rw [podsFold_pods ps (recordMeta (pushRaw q frag) frag), hpodsA]
  · intro pos
    rw [podsFold_get pos ps (recordMeta (pushRaw q frag) frag), hpodsA]
  · intro hnd
    exact podsFold_keys_nodup ps (recordMeta (pushRaw q frag) frag) (by rw [hpodsA]; exact hnd)

/-- Witness for C3: three pods at the same position, the middle one
errored. -/
theorem pods_lastWriteWins_witness :
    (fragPods.payload = FragmentPayload.pods [podFirst, podBad, podSecond]) ∧
    ((handleResponseObject sampleMap sampleSession fragPods).1 =
      Except.ok ([("a", podsResult)], podsResult)) ∧
    podsResult.erroredPods = sampleSession.erroredPods ++
      ([podFirst, podBad, podSecond].filter (fun p => p.error)) ∧
    assocGet 1 podsResult.pods = some podSecond := by
  have h : (handleResponseObject sampleMap sampleSession fragPods).1 =
      Except.ok ([("a", podsResult)], podsResult) := rfl
  have H := pods_lastWriteWins sampleMap sampleSession fragPods [podFirst, podBad, podSecond]
    [("a", podsResult)] podsResult rfl h
  exact ⟨rfl, h, H.1, rfl⟩

theorem assocGet_rejectAll (e k : String) (m : SessionMap) :
    assocGet k (m.map (fun p => (p.1, { p.2 with deferred := rejectD e p.2.deferred }))) =
      (assocGet k m).map (fun a => { a with deferred := rejectD e a.deferred }) := by
  induction m with
  | nil => simp [assocGet]
  | cons p rest ih => by_cases hp : p.1 = k <;> simp [assocGet, hp, ih]

/-- Claim C4: a channel error rejects (via `rejectD`) the completion of
every session in the outstanding map without removing any entry (pending
ones end rejected with that error); a clean close touches no session; and
no other path rejects: open/send leave the map alone and the fragment
handler can only resolve a pending deferred, never reject one. -/
theorem channelError_rejects_outstanding_only :
    ∀ (st : ApiState) (e : String),
      ((socketOnError st e).pendingResponses =
          st.pendingResponses.map
            (fun p => (p.1, { p.2 with deferred := rejectD e p.2.deferred }))) ∧
      ((socketOnError st e).pendingResponses.map Prod.fst =
          st.pendingResponses.map Prod.fst) ∧
      (∀ (k : String) (q : QueryResult),
        assocGet k st.pendingResponses = some q →
        q.deferred = DeferredState.pending →
        assocGet k (socketOnError st e).pendingResponses =
          some { q with deferred := DeferredState.rejected e }) ∧
      ((socketOnClose st).pendingResponses = st.pendingResponses) ∧
      (∀ now : Nat, (socketOnOpen st now).pendingResponses = st.pendingResponses) ∧
      (∀ msg : WireMsg, (sendMessage st msg).pendingResponses = st.pendingResponses) ∧
      (∀ (m : SessionMap) (q : QueryResult) (frag : Fragment)
         (m2 : SessionMap) (q2 : QueryResult),
        (handleResponseObject m q frag).1 = Except.ok (m2, q2) →
        q2.deferred = q.deferred ∨
          (q.deferred = DeferredState.pending ∧ q2.deferred = DeferredState.resolved)) := by
  intro st e
  refine ⟨rfl, ?_, ?_, rfl, fun _ => rfl, ?_, ?_⟩
  · show (st.pendingResponses.map
        (fun p => (p.1, { p.2 with deferred := rejectD e p.2.deferred }))).map Prod.fst =
      st.pendingResponses.map Prod.fst
    rw [List.map_map]
    rfl
  · intro k q hget hq
    simp only [socketOnError]
    rw [assocGet_rejectAll e k st.pendingResponses, hget]
    simp [hq, rejectD]
  · intro msg
    by_cases h : st.socketReady = true
    · simp [sendMessage, h]
    · simp only [sendMessage, h]
      by_cases hs : st.hasSocket = true <;> simp [hs, doWebsocketConnect]
  · intro m q frag m2 q2 h
    have hdef := handleRO_deferred m q frag m2 q2 h
    cases hp : frag.payload with
    | queryComplete ts =>
      simp only [hp] at hdef
      cases hq : q.deferred with
      | pending => exact Or.inr ⟨rfl, by rw [hdef, hq]; rfl⟩
      | resolved => exact Or.inl (by rw [hdef, hq]; rfl)
      | rejected e2 => exact Or.inl (by rw [hdef, hq]; rfl)
    | didyoumean sugg => simp only [hp] at hdef; exact Or.inl hdef
    | assumptions entries => simp only [hp] at hdef; exact Or.inl hdef
    | pods ps => simp only [hp] at hdef; exact Or.inl hdef
    | stepByStep p => simp only [hp] at hdef; exact Or.inl hdef
    | warnings w => simp only [hp] at hdef; exact Or.inl hdef
    | noResult => simp only [hp] at hdef; exact Or.inl hdef
    | futureTopic t => simp only [hp] at hdef; exact Or.inl hdef
    | other ty => simp only [hp] at hdef; exact Or.inl hdef

/-- Witness for C4 at an api state with two outstanding pending sessions. -/
theorem channelError_rejects_outstanding_only_witness :
    ((socketOnError sampleApiTwoSessions "boom").pendingResponses =
      [("a", { sampleSession with deferred := DeferredState.rejected "boom" }),
       ("b", { sampleSession2 with deferred := DeferredState.rejected "boom" })]) ∧
    (assocGet "a" (socketOnError sampleApiTwoSessions "boom").pendingResponses =
      some { sampleSession with deferred := DeferredState.rejected "boom" }) ∧
    ((socketOnClose sampleApiTwoSessions).pendingResponses =
      sampleApiTwoSessions.pendingResponses) := by
  have H := channelError_rejects_outstanding_only sampleApiTwoSessions "boom"
  exact ⟨rfl, H.2.2.1 "a" sampleSession rfl rfl, H.2.2.2.1⟩

theorem sendAll_not_ready :
    ∀ (msgs : List WireMsg) (st : ApiState), st.socketReady = false →
      ((msgs.foldl sendMessage st).queue = st.queue ++ msgs ∧
       (msgs.foldl sendMessage st).sent = st.sent ∧
       (msgs.foldl sendMessage st).socketReady = false) := by
  intro msgs
  induction msgs with
  | nil => intro st h; exact ⟨by simp, rfl, h⟩
  | cons msg rest ih =>
    intro st h
    rw [List.foldl_cons]
    by_cases hs : st.hasSocket = true
    · have hsend : sendMessage st msg = { st with queue := st.queue ++ [msg] } := by
        simp [sendMessage, h, hs]
      rw [hsend]
      have := ih { st with queue := st.queue ++ [msg] } h
      simpa [List.append_assoc] using this
    · have hsend : sendMessage st msg =
          { st with queue := st.queue ++ [msg], hasSocket := true } := by
        simp only [sendMessage, h, Bool.false_eq_true, if_false]
        simp [hs, doWebsocketConnect]
      rw [hsend]
      have := ih { st with queue := st.queue ++ [msg], hasSocket := true } h
      simpa [List.append_assoc] using this

/-- Claim C5: messages submitted while the channel is not ready are queued
in FIFO order with nothing sent; when the socket opens, exactly one init
message is sent carrying the language, the timestamp and the whole queue in
order, the queue is cleared and the state is ready; once ready, a submitted
message is sent immediately and the queue is untouched. -/
theorem queue_fifo_single_init_flush :
    ∀ (st : ApiState) (msgs : List WireMsg) (msg : WireMsg) (now : Nat),
      (st.socketReady = false →
        ((msgs.foldl sendMessage st).queue = st.queue ++ msgs ∧
         (msgs.foldl sendMessage st).sent = st.sent)) ∧
      ((socketOnOpen st now).sent = st.sent ++ [mkInitMsg st.language now st.queue] ∧
       (socketOnOpen st now).queue = [] ∧
       (socketOnOpen st now).socketReady = true) ∧
      (st.socketReady = true →
        ((sendMessage st msg).sent = st.sent ++ [msg] ∧
         (sendMessage st msg).queue = st.queue)) := by
  intro st msgs msg now
  refine ⟨fun h => ⟨(sendAll_not_ready msgs st h).1, (sendAll_not_ready msgs st h).2.1⟩,
    ⟨rfl, rfl, rfl⟩, fun h => ⟨by simp [sendMessage, h], by simp [sendMessage, h]⟩⟩

/-- Witness for C5: two messages queued before the socket exists, then the
open handler flushes them in one init message. -/
theorem queue_fifo_single_init_flush_witness :
    (sampleApiUnready.socketReady = false) ∧
    (([msgA, msgB].foldl sendMessage sampleApiUnready).queue =
      sampleApiUnready.queue ++ [msgA, msgB]) ∧
    ((socketOnOpen sampleApiUnready 7).sent =
      sampleApiUnready.sent ++ [mkInitMsg sampleApiUnready.language 7 sampleApiUnready.queue]) := by
  have H := queue_fifo_single_init_flush sampleApiUnready [msgA, msgB] msgA 7
  exact ⟨rfl, (H.1 rfl).1, H.2.1.1⟩

/-- Counterexample to C6 as stated: the source's sentinel is the literal
`" the input "` with surrounding spaces; when the first value's word field
is exactly `"the input"` (no spaces) the word field itself is used, not the
query text the claim predicts. -/
theorem word_sentinel_counterexample :
    expandAssumption assumptionTheInput = Except.ok "the input" ∧
    assumptionTheInput.query = "QUERYTEXT" ∧
    ("the input" : String) ≠ ("QUERYTEXT" : String) :=
  ⟨rfl, rfl, by decide⟩

/-- Claim C6 (amended): the `$\x7bword\x7d` placeholder resolves through the
priority chain of the claim, with the sentinel being the source's literal
`" the input "` (surrounding spaces included): sentinel word `"AssumingWord"`
takes the first value's description; else a non-empty assumption word field
is used; else a non-empty first-value word field is used unless it is
`" the input "`, in which case the query text is substituted; else the query
text is used. -/
theorem word_priority_chain :
    ∀ (a : Assumption) (v0 : AValue) (di : Nat),
      a.values.head? = some v0 →
      resolveKey a "$\x7bword\x7d" di = Except.ok (wordChainSpec a v0, di) := by
  intro a v0 di h
  have h1 : ¬(("$\x7bword\x7d" : String) = "$\x7bdesc\x7d") := by decide
  have h2 : ¬(("$\x7bword\x7d" : String) = "$\x7bseparator\x7d") := by decide
  simp only [resolveKey, if_neg h1, if_neg h2, if_pos rfl, h, wordChainSpec]
  split_ifs <;> rfl

/-- Witness for C6 (amended) at a concrete assumption. -/
theorem word_priority_chain_witness :
    (assumptionTheInput.values.head? = some { desc := "zz", word := "the input" }) ∧
    (resolveKey assumptionTheInput "$\x7bword\x7d" 0 =
      Except.ok (wordChainSpec assumptionTheInput { desc := "zz", word := "the input" }, 0)) :=
  ⟨rfl, word_priority_chain assumptionTheInput { desc := "zz", word := "the input" } 0 rfl⟩

/-- Counterexample to C7 as stated: an `assumptions` fragment whose template
contains no placeholder makes the handler throw (`template.match` is `null`
and `keys.length` raises a `TypeError`), modelled as `Except.error`. -/
theorem apply_throws_counterexample :
    (handleResponseObject sampleMap sampleSession fragBadAssumptions).1 =
      Except.error () := rfl

/-- Claim C7 (amended): applying a fragment never throws unless it is an
`assumptions` fragment with a malformed entry (a template without any
placeholder, or an empty values list); for every other fragment, and for
well-formed assumption entries, the handler returns normally, and failure is
otherwise communicated only through the completion future or the `failed`
flag. -/
theorem apply_never_throws_on_wellformed :
    ∀ (m : SessionMap) (q : QueryResult) (frag : Fragment),
      (∀ entries, frag.payload = FragmentPayload.assumptions entries →
        ∀ a ∈ entries, (splitTemplate a.template).2 ≠ [] ∧ a.values ≠ []) →
      (handleResponseObject m q frag).1 ≠ Except.error () := by
  intro m q frag h
  cases hp : frag.payload with
  | queryComplete ts =>
    simp only [handleResponseObject, hp]
    exact fun hcon => Except.noConfusion hcon
  | didyoumean sugg =>
    simp only [handleResponseObject, hp]
    exact fun hcon => Except.noConfusion hcon
  | assumptions entries =>
    obtain ⟨q4, hq4⟩ :=
      applyAssumptions_ok entries (recordMeta (pushRaw q frag) frag) (h entries hp)
    simp only [handleResponseObject, hp, hq4]
    exact fun hcon => Except.noConfusion hcon
  | pods ps =>
    simp only [handleResponseObject, hp]
    exact fun hcon => Except.noConfusion hcon
  | stepByStep p =>
    simp only [handleResponseObject, hp]
    exact fun hcon => Except.noConfusion hcon
  | warnings w =>
    simp only [handleResponseObject, hp]
    exact fun hcon => Except.noConfusion hcon
  | noResult =>
    simp only [handleResponseObject, hp]
    exact fun hcon => Except.noConfusion hcon
  | futureTopic t =>
    simp only [handleResponseObject, hp]
    exact fun hcon => Except.noConfusion hcon
  | other ty =>
    simp only [handleResponseObject, hp]
    exact fun hcon => Except.noConfusion hcon

/-- Witness for C7 (amended) at a well-formed `assumptions` fragment. -/
theorem apply_never_throws_on_wellformed_witness :
    (∀ entries, fragGoodAssumptions.payload = FragmentPayload.assumptions entries →
      ∀ a ∈ entries, (splitTemplate a.template).2 ≠ [] ∧ a.values ≠ []) ∧
    (handleResponseObject sampleMap sampleSession fragGoodAssumptions).1 ≠
      Except.error () := by
  have hwf : ∀ entries, fragGoodAssumptions.payload = FragmentPayload.assumptions entries →
      ∀ a ∈ entries, (splitTemplate a.template).2 ≠ [] ∧ a.values ≠ [] := by
    intro entries he a ha
    have he2 : FragmentPayload.assumptions [goodAssumption] =
        FragmentPayload.assumptions entries := he
    injection he2 with h3
    subst h3
    simp only [List.mem_singleton] at ha
    subst ha
    exact ⟨by decide, by decide⟩
  exact ⟨hwf, apply_never_throws_on_wellformed sampleMap sampleSession fragGoodAssumptions hwf⟩

/-- Counterexample to C8 as stated: the listener notification for a
`queryComplete` fragment carries a session snapshot whose deferred is still
pending, while after the dispatch it is resolved — the notification fires
before the kind-specific state mutation, not after it. -/
theorem emit_before_mutation_counterexample :
    ((handleResponseObject sampleMap sampleSession fragQC).2 =
      [(fragQC, pushRaw sampleSession fragQC)]) ∧
    ((pushRaw sampleSession fragQC).deferred = DeferredState.pending) ∧
    ((handleResponseObject sampleMap sampleSession fragQC).1 =
      Except.ok (([] : SessionMap), qcResult)) ∧
    (qcResult.deferred = DeferredState.resolved) := ⟨rfl, rfl, rfl, rfl⟩

/-- Claim C8 (amended): for every dispatched fragment the listener
notification fires exactly once, carrying the raw fragment, and it fires
after the raw fragment is appended to `responseObjects` but before the
kind-specific state mutation: the emitted snapshot is exactly
`pushRaw q frag`. -/
theorem emit_once_before_kind_mutation :
    ∀ (m : SessionMap) (q : QueryResult) (frag : Fragment),
      (handleResponseObject m q frag).2 = [(frag, pushRaw q frag)] := by
  intro m q frag
  rfl

/-- Counterexample to C9 as stated: the wire discriminant field is named
`type`, not `kind`, in both outbound messages. -/
theorem wire_kind_counterexample :
    (assocGet "kind" (mkQueryRequest "en" "x" [] "id0") = none) ∧
    (assocGet "type" (mkQueryRequest "en" "x" [] "id0") = some (JsonVal.str "newQuery")) ∧
    (assocGet "kind" (mkInitMsg "en" 0 []) = none) ∧
    (assocGet "type" (mkInitMsg "en" 0 []) = some (JsonVal.str "init")) :=
  ⟨rfl, rfl, rfl, rfl⟩

/-- Claim C9 (amended): the query-start message sent by `query()` has
exactly the wire shape type:"newQuery", language, file:null, input,
assumption:[...], locationId — and the init message sent on open has exactly
the shape type:"init", lang, exp, messages — field names and order as
written, with the discriminant field named `type` (the spec's `kind`). -/
theorem wire_shapes_exact :
    ∀ (st : ApiState) (id input : String) (assumptions : List String) (now : Nat),
      (st.socketReady = true →
        (apiQuery st id input assumptions).1.sent =
          st.sent ++ [[("type", JsonVal.str "newQuery"),
                       ("language", JsonVal.str st.language),
                       ("file", JsonVal.nullV),
                       ("input", JsonVal.str input),
                       ("assumption", JsonVal.arr (assumptions.map JsonVal.str)),
                       ("locationId", JsonVal.str id)]]) ∧
      ((socketOnOpen st now).sent =
        st.sent ++ [[("type", JsonVal.str "init"),
                     ("lang", JsonVal.str st.language),
                     ("exp", JsonVal.num now),
                     ("messages", JsonVal.arr (st.queue.map JsonVal.obj))]]) := by
  intro st id input assumptions now
  constructor
  · intro h
    simp [apiQuery, sendMessage, h, mkQueryRequest]
  · rfl

/-- Witness for C9 (amended) at a ready api state. -/
theorem wire_shapes_exact_witness :
    (sampleApiReady.socketReady = true) ∧
    ((apiQuery sampleApiReady "id0" "x" []).1.sent =
      sampleApiReady.sent ++ [[("type", JsonVal.str "newQuery"),
        ("language", JsonVal.str sampleApiReady.language),
        ("file", JsonVal.nullV),
        ("input", JsonVal.str "x"),
        ("assumption", JsonVal.arr (([] : List String).map JsonVal.str)),
        ("locationId", JsonVal.str "id0")]]) := by
  have H := wire_shapes_exact sampleApiReady "id0" "x" [] 0
  exact ⟨rfl, H.1 rfl⟩

/-- Claim C10: a `$\x7bdesc\x7d` placeholder whose cursor is past the end
of the values list appends nothing beyond the pending literal chunk, raises
no error, advances the cursor, and expansion continues normally with the
remaining chunks and keys. -/
theorem desc_overflow_appends_nothing :
    ∀ (a : Assumption) (chunks keys : List String) (di : Nat) (acc : String),
      a.values.length ≤ di →
      expandLoop a chunks ("$\x7bdesc\x7d" :: keys) di acc =
        expandLoop a (chunks.drop 1) keys (di + 1) (acc ++ chunks.headD "undefined") := by
  intro a chunks keys di acc h
  have hget : a.values.get? di = none := List.get?_eq_none.mpr h
  have hget2 : a.values[di]? = none := by rw [← List.get?_eq_getElem?]; exact hget
  simp [expandLoop, resolveKey, hget, hget2]

/-- Witness for C10 at a cursor far past the single value. -/
theorem desc_overflow_appends_nothing_witness :
    (assumptionTheInput.values.length ≤ 5) ∧
    (expandLoop assumptionTheInput ["A", "B"] ["$\x7bdesc\x7d"] 5 "" =
      expandLoop assumptionTheInput (["A", "B"].drop 1) [] (5 + 1)
        ("" ++ (["A", "B"].headD "undefined"))) :=
  ⟨by decide,
    desc_overflow_appends_nothing assumptionTheInput ["A", "B"] [] 5 "" (by decide)⟩
